import Mathlib

/-!
Verification development for the site-analyzer suitability engine.

Part A embeds the numeric raster primitives of
`backend/app/gis/functions.py` (RPL_Reclassify, RPL_Combine_rasters).
A raster is modelled as its band-1 cell list together with the declared
nodata value; cell values are rationals (the Python code works on numpy
float arrays; the claims under study are exact-arithmetic properties, so
no floating-point rounding is modelled).  Fallible Python code (raised
ValueError / ZeroDivisionError / IndexError) is modelled as
`Except String`.

Part B embeds the orchestration layer:
`SiteSuitabilityEngine._initialize_factors` / `process_district`
(`backend/app/gis/engine.py`) and `process_map_task`
(`backend/app/gis/processor.py`).  File-producing primitive operations
are modelled at the path/bookkeeping level as emitted work items; the
cooperative-cancellation monitor is modelled as a Boolean schedule
indexed by the successive task-status reads.
-/

/-- `DISTANCE_NODATA = -9999` from functions.py. -/
def DISTANCE_NODATA : ℚ := -9999

/-- A single-band raster: cell values plus the declared nodata value. -/
structure Raster where
  data : List ℚ
  nodata : Option ℚ
deriving DecidableEq, Repr

/-- A reclassification rule `(low, high, value)` for the half-open
interval `[low, high)`. -/
abbrev RRule := ℚ × ℚ × ℚ

/-- `min([r[0] for r in remap_range])` over the nonempty rule list
`t :: ts`. -/
def remapMinOf (t : RRule) (ts : List RRule) : ℚ :=
  (ts.map (fun u => u.1)).foldl min t.1

/-- `max([r[1] for r in remap_range])` over the nonempty rule list
`t :: ts`. -/
def remapMaxOf (t : RRule) (ts : List RRule) : ℚ :=
  (ts.map (fun u => u.2.1)).foldl max t.2.1

/-- The non-nodata cells of a raster (`data[~nodata_mask]`). -/
def nonNodataCells (r : Raster) : List ℚ :=
  r.data.filter (fun v => decide (¬ r.nodata = some v))

/-- `np.nanmin(without_nodata)`: `none` when every cell is nodata (numpy
raises on an empty array). -/
def dataMinOf (r : Raster) : Option ℚ :=
  match nonNodataCells r with
  | [] => none
  | v :: vs => some (vs.foldl min v)

/-- `np.nanmax(without_nodata)`. -/
def dataMaxOf (r : Raster) : Option ℚ :=
  match nonNodataCells r with
  | [] => none
  | v :: vs => some (vs.foldl max v)

/-- The sequential masked assignments of RPL_Reclassify: each rule's mask
is computed on the ORIGINAL data, assignments go to the copy, so on
overlap the last matching rule wins and an unmatched value is left
unchanged. -/
def applyRemap (rules : List RRule) (v : ℚ) : ℚ :=
  rules.foldl (fun acc u => if u.1 ≤ v ∧ v < u.2.1 then u.2.2 else acc) v

/-- Per-cell effect of RPL_Reclassify: nodata cells are restored to the
nodata value at the end (`reclassified_data[nodata_mask] = nodata_value`);
all other cells go through the rule assignments. -/
def reclassCell (nd : Option ℚ) (rules : List RRule) (v : ℚ) : ℚ :=
  if nd = some v then v else applyRemap rules v

/-- The nodata guard of RPL_Reclassify line 247: Python raises when
`nodata_value >= remap_min and nodata_value <= remap_max`. -/
def ndInEnvelope (ndq : Option ℚ) (t : RRule) (ts : List RRule) : Bool :=
  match ndq with
  | some nd => decide (remapMinOf t ts ≤ nd) && decide (nd ≤ remapMaxOf t ts)
  | none => false

/-- `RPL_Reclassify` from functions.py.  Order of the guards follows the
source: empty-rule `min()` failure, then the nodata-inside-remap-range
ValueError, then the empty-data `np.nanmin` failure, then the
envelope-coverage ValueError, and only then the reclassification map.
(`np.isnan(nodata_value)` is never true on rationals, so the isnan
short-circuit of line 247 has no counterpart.) -/
def RPL_Reclassify (r : Raster) (rules : List RRule) : Except String Raster :=
  match rules with
  | [] => Except.error "min arg is an empty sequence"
  | t :: ts =>
    if ndInEnvelope r.nodata t ts then Except.error "Nodata value inside the remap range"
    else
      match dataMinOf r, dataMaxOf r with
      | some mn, some mx =>
        if remapMinOf t ts ≤ mn ∧ mx ≤ remapMaxOf t ts then
          Except.ok ⟨r.data.map (reclassCell r.nodata (t :: ts)), r.nodata⟩
        else Except.error "Remap range does not cover the data range"
      | _, _ => Except.error "zero-size array reduction"

/-- Whether some rule's half-open interval `[low, high)` contains `v`
(the union-coverage notion used by the specification). -/
def ruleUnionCovers (rules : List RRule) (v : ℚ) : Bool :=
  rules.any (fun u => decide (u.1 ≤ v) && decide (v < u.2.1))

/-- `RPL_Combine_rasters` from functions.py.  The weight list is
normalized by its total (Python raises ZeroDivisionError on a zero
total and IndexError on an empty input list); the per-cell weighted sum
starts from the first raster and accumulates the rest; only the FIRST
raster's nodata mask is honoured, masked cells and the output nodata
metadata becoming `DISTANCE_NODATA`.  numpy raises on shape mismatch
during accumulation; the model checks the lengths up front. -/
def RPL_Combine_rasters (inputs : List (Raster × ℚ)) : Except String Raster :=
  match inputs with
  | [] => Except.error "list index out of range"
  | (r0, w0) :: rest =>
    let total := w0 + (rest.map (fun p => p.2)).sum
    if total = 0 then Except.error "division by zero"
    else if rest.any (fun p => decide (¬ p.1.data.length = r0.data.length)) then
      Except.error "operands could not be broadcast together"
    else
      let base := r0.data.map (fun v => v * (w0 / total))
      let wsum := rest.foldl
        (fun acc p => List.zipWith (fun a v => a + v * (p.2 / total)) acc p.1.data) base
      match r0.nodata with
      | some nd =>
        Except.ok ⟨(r0.data.zip wsum).map (fun q => if q.1 = nd then DISTANCE_NODATA else q.2),
          some DISTANCE_NODATA⟩
      | none => Except.ok ⟨wsum, none⟩

deriving instance DecidableEq for Except

/-- Boolean success test for the modelled fallible operations. -/
def exOk (e : Except String Raster) : Bool :=
  match e with
  | Except.ok _ => true
  | Except.error _ => false

lemma foldlRemap_no_match (v : ℚ) :
    ∀ (rules : List RRule) (a : ℚ),
      (∀ u ∈ rules, ¬(u.1 ≤ v ∧ v < u.2.1)) →
      rules.foldl (fun acc u => if u.1 ≤ v ∧ v < u.2.1 then u.2.2 else acc) a = a := by
  intro rules
  induction rules with
  | nil => intro a _; rfl
  | cons u rs ih =>
    intro a h
    have hu := h u (List.mem_cons_self u rs)
    simp only [List.foldl_cons, if_neg hu]
    exact ih a (fun w hw => h w (List.mem_cons_of_mem u hw))

lemma foldlRemap_unique (v c : ℚ) :
    ∀ (rules : List RRule) (a : ℚ),
      (∀ u ∈ rules, u.1 ≤ v → v < u.2.1 → u.2.2 = c) →
      (∃ u ∈ rules, u.1 ≤ v ∧ v < u.2.1) →
      rules.foldl (fun acc u => if u.1 ≤ v ∧ v < u.2.1 then u.2.2 else acc) a = c := by
  intro rules
  induction rules with
  | nil =>
    intro a _ hex
    rcases hex with ⟨u, hu, _⟩
    exact absurd hu (List.not_mem_nil u)
  | cons u rs ih =>
    intro a hall hex
    simp only [List.foldl_cons]
    by_cases hrs : ∃ w ∈ rs, w.1 ≤ v ∧ v < w.2.1
    · exact ih _ (fun w hw => hall w (List.mem_cons_of_mem u hw)) hrs
    · have hnone : ∀ w ∈ rs, ¬(w.1 ≤ v ∧ v < w.2.1) := by
        intro w hw hcon
        exact hrs ⟨w, hw, hcon⟩
      have hu : u.1 ≤ v ∧ v < u.2.1 := by
        rcases hex with ⟨w, hw, hcon⟩
        rcases List.mem_cons.mp hw with h1 | h2
        · exact h1 ▸ hcon
        · exact absurd hcon (hnone w h2)
      rw [if_pos hu, foldlRemap_no_match v rs _ hnone]
      exact hall u (List.mem_cons_self u rs) hu.1 hu.2

lemma applyRemap_eq_of_unique (rules : List RRule) (v : ℚ) (u : RRule)
    (hu : u ∈ rules) (h1 : u.1 ≤ v) (h2 : v < u.2.1)
    (hag : ∀ w ∈ rules, w.1 ≤ v → v < w.2.1 → w.2.2 = u.2.2) :
    applyRemap rules v = u.2.2 :=
  foldlRemap_unique v u.2.2 rules v hag ⟨u, hu, h1, h2⟩

lemma ndInEnvelope_eq_false_iff (ndq : Option ℚ) (t : RRule) (ts : List RRule) :
    ndInEnvelope ndq t ts = false ↔
      ∀ nd, ndq = some nd → (nd < remapMinOf t ts ∨ remapMaxOf t ts < nd) := by
  rcases ndq with _ | nd
  · simp [ndInEnvelope]
  · simp only [ndInEnvelope, Bool.and_eq_false_iff]
    constructor
    · rintro (h | h) m hm <;> cases hm
      · exact Or.inl (not_le.mp (by simpa using h))
      · exact Or.inr (not_le.mp (by simpa using h))
    · intro h
      rcases h nd rfl with h1 | h1
      · exact Or.inl (by simpa using not_le.mpr h1)
      · exact Or.inr (by simpa using not_le.mpr h1)

/-- C10: a finite declared nodata value lying inside the closed envelope
of the rule bounds makes RPL_Reclassify raise before any
reclassification: the result is the ValueError, no output raster. -/
theorem reclassify_nodata_in_envelope_errors (r : Raster) (t : RRule) (ts : List RRule) (nd : ℚ)
    (hnd : r.nodata = some nd)
    (h1 : remapMinOf t ts ≤ nd) (h2 : nd ≤ remapMaxOf t ts) :
    RPL_Reclassify r (t :: ts) = Except.error "Nodata value inside the remap range" := by
  have hb : ndInEnvelope r.nodata t ts = true := by
    rw [hnd]
    simp [ndInEnvelope, h1, h2]
  simp [RPL_Reclassify, hb]

theorem reclassify_nodata_in_envelope_errors_witness :
    remapMinOf (0, 10, 1) [] ≤ 5 ∧ (5:ℚ) ≤ remapMaxOf (0, 10, 1) [] ∧
      RPL_Reclassify ⟨[1, 2], some 5⟩ [(0, 10, 1)] =
        Except.error "Nodata value inside the remap range" :=
  ⟨by decide, by decide,
    reclassify_nodata_in_envelope_errors ⟨[1, 2], some 5⟩ (0, 10, 1) [] 5 rfl
      (by decide) (by decide)⟩

/-- C2 (amended): on a nonempty rule list, RPL_Reclassify succeeds exactly
when the declared nodata value lies strictly outside the rule-bound
envelope (vacuously, when there is none) and the non-nodata data range is
nonempty and enclosed by that envelope.  Only the envelope
`[min lows, max highs]` is checked: interior gaps between rule intervals
are not detected. -/
theorem reclassify_ok_iff_envelope (r : Raster) (t : RRule) (ts : List RRule) :
    exOk (RPL_Reclassify r (t :: ts)) = true ↔
      (∀ nd, r.nodata = some nd → (nd < remapMinOf t ts ∨ remapMaxOf t ts < nd)) ∧
      (∃ mn mx, dataMinOf r = some mn ∧ dataMaxOf r = some mx ∧
        remapMinOf t ts ≤ mn ∧ mx ≤ remapMaxOf t ts) := by
  rw [← ndInEnvelope_eq_false_iff r.nodata t ts]
  rcases hB : ndInEnvelope r.nodata t ts with _ | _
  · simp only [RPL_Reclassify, hB, Bool.false_eq_true, if_false]
    rcases hmn : dataMinOf r with _ | mn
    · rcases hmx : dataMaxOf r with _ | mx <;> simp [exOk]
    · rcases hmx : dataMaxOf r with _ | mx
      · simp [exOk]
      · by_cases hcov : remapMinOf t ts ≤ mn ∧ mx ≤ remapMaxOf t ts
        · simp only [if_pos hcov, exOk]
          simp [hcov.1, hcov.2]
        · simp only [if_neg hcov, exOk]
          simp only [Bool.false_eq_true, false_iff, not_and]
          intro _ hex
          rcases hex with ⟨m, M, hm, hM, hc1, hc2⟩
          cases hm
          cases hM
          exact hcov ⟨hc1, hc2⟩
  · simp only [RPL_Reclassify, hB, if_true]
    simp only [exOk, Bool.false_eq_true, false_iff, not_and]
    intro hfalse
    simp [hB] at hfalse

/-- C2 (counterexample): rules `[(0,5,10),(7,9,3)]` on data `[1,6,8]`:
the union of the half-open rule intervals does not cover the value 6 of
the data range `[1,8]`, yet RPL_Reclassify succeeds and writes an output
in which the uncovered cell keeps its original value. -/
theorem reclassify_gap_counterexample :
    ruleUnionCovers [(0, 5, 10), (7, 9, 3)] 6 = false ∧
      (6:ℚ) ∈ Raster.data ⟨[1, 6, 8], none⟩ ∧
      dataMinOf ⟨[1, 6, 8], none⟩ = some 1 ∧
      dataMaxOf ⟨[1, 6, 8], none⟩ = some 8 ∧
      RPL_Reclassify ⟨[1, 6, 8], none⟩ [(0, 5, 10), (7, 9, 3)] =
        Except.ok ⟨[10, 6, 3], none⟩ := by
  refine ⟨by decide, by decide, by decide, by decide, by decide⟩

/-- C6: whenever RPL_Reclassify succeeds, the output keeps the nodata
declaration, the output cells are the pointwise `reclassCell` image of the
input cells, every nodata cell is preserved unchanged, and every
non-nodata cell lying in a rule's `[low, high)` (with all rules containing
it agreeing on the value, as for disjoint rule sets) is mapped to exactly
that rule's value. -/
theorem reclassify_maps_covered_cells (r : Raster) (rules : List RRule) (out : Raster)
    (h : RPL_Reclassify r rules = Except.ok out) :
    out.nodata = r.nodata ∧
    out.data = r.data.map (reclassCell r.nodata rules) ∧
    (∀ v, r.nodata = some v → reclassCell r.nodata rules v = v) ∧
    (∀ v u, u ∈ rules → u.1 ≤ v → v < u.2.1 →
      (∀ w, w ∈ rules → w.1 ≤ v → v < w.2.1 → w.2.2 = u.2.2) →
      ¬ r.nodata = some v → reclassCell r.nodata rules v = u.2.2) := by
  have hshape : out.nodata = r.nodata ∧ out.data = r.data.map (reclassCell r.nodata rules) := by
    rcases rules with _ | ⟨t, ts⟩
    · exact absurd h (by simp [RPL_Reclassify])
    · rcases hB : ndInEnvelope r.nodata t ts with _ | _
      · simp only [RPL_Reclassify, hB, Bool.false_eq_true, if_false] at h
        rcases hmn : dataMinOf r with _ | mn <;> rw [hmn] at h
        · rcases hmx : dataMaxOf r with _ | mx <;> rw [hmx] at h <;> exact absurd h (by simp)
        · rcases hmx : dataMaxOf r with _ | mx <;> rw [hmx] at h
          · exact absurd h (by simp)
          · dsimp only at h
            by_cases hcov : remapMinOf t ts ≤ mn ∧ mx ≤ remapMaxOf t ts
            · rw [if_pos hcov] at h
              have := Except.ok.inj h
              exact ⟨by rw [← this], by rw [← this]⟩
            · rw [if_neg hcov] at h
              exact absurd h (by simp)
      · simp only [RPL_Reclassify, hB, if_true] at h
        exact absurd h (by simp)
  refine ⟨hshape.1, hshape.2, ?_, ?_⟩
  · intro v hv
    simp [reclassCell, hv]
  · intro v u hu h1 h2 hag hnv
    have : reclassCell r.nodata rules v = applyRemap rules v := by
      simp [reclassCell, hnv]
    rw [this]
    exact applyRemap_eq_of_unique rules v u hu h1 h2 hag

theorem reclassify_maps_covered_cells_witness :
    RPL_Reclassify ⟨[1, 3, 7, 12, 18, 25], none⟩
        [(0, 5, 10), (5, 10, 8), (10, 15, 5), (15, 30, 2)] =
      Except.ok ⟨[10, 10, 8, 5, 2, 2], none⟩ ∧
    reclassCell none [(0, 5, 10), (5, 10, 8), (10, 15, 5), (15, 30, 2)] 7 = 8 := by
  have h : RPL_Reclassify ⟨[1, 3, 7, 12, 18, 25], none⟩
      [(0, 5, 10), (5, 10, 8), (10, 15, 5), (15, 30, 2)] =
      Except.ok ⟨[10, 10, 8, 5, 2, 2], none⟩ := by decide
  refine ⟨h, ?_⟩
  exact (reclassify_maps_covered_cells _ _ _ h).2.2.2 7 (5, 10, 8)
    (by decide) (by decide) (by decide) (by decide) (by decide)

/-- C7: RPL_Combine_rasters normalizes the weight list by its total, so
scaling every weight by one positive constant leaves the result (success
or failure alike) unchanged. -/
theorem combine_rasters_weight_scaling (inputs : List (Raster × ℚ)) (c : ℚ) (hc : 0 < c) :
    RPL_Combine_rasters (inputs.map (fun p => (p.1, c * p.2))) = RPL_Combine_rasters inputs := by
  have hc0 : c ≠ 0 := ne_of_gt hc
  rcases inputs with _ | ⟨⟨r0, w0⟩, rest⟩
  · rfl
  · simp only [List.map_cons, RPL_Combine_rasters]
    have hsum : ((rest.map (fun p => (p.1, c * p.2))).map (fun p => p.2)).sum
        = c * (rest.map (fun p => p.2)).sum := by
      rw [List.map_map]
      exact List.sum_map_mul_left rest (fun p => p.2) c
    have htot : c * w0 + ((rest.map (fun p => (p.1, c * p.2))).map (fun p => p.2)).sum
        = c * (w0 + (rest.map (fun p => p.2)).sum) := by
      rw [hsum, mul_add]
    rw [htot]
    by_cases h0 : w0 + (rest.map (fun p => p.2)).sum = 0
    · rw [if_pos h0, if_pos (by rw [h0, mul_zero])]
    · rw [if_neg h0, if_neg (fun hh => h0 (by
        rcases mul_eq_zero.mp hh with h | h
        · exact absurd h hc0
        · exact h))]
      have hany : (rest.map (fun p => (p.1, c * p.2))).any
            (fun p => decide (¬ p.1.data.length = r0.data.length))
          = rest.any (fun p => decide (¬ p.1.data.length = r0.data.length)) := by
        rw [List.any_map]
        rfl
      rw [hany]
      by_cases hsh : rest.any (fun p => decide (¬ p.1.data.length = r0.data.length)) = true
      · rw [if_pos hsh, if_pos hsh]
      · rw [if_neg hsh, if_neg hsh]
        have hw : ∀ w : ℚ, (c * w) / (c * (w0 + (rest.map (fun p => p.2)).sum))
            = w / (w0 + (rest.map (fun p => p.2)).sum) := fun w =>
          mul_div_mul_left w _ hc0
      
        have hbase : r0.data.map (fun v => v * ((c * w0) / (c * (w0 + (rest.map (fun p => p.2)).sum))))
            = r0.data.map (fun v => v * (w0 / (w0 + (rest.map (fun p => p.2)).sum))) := by
          rw [hw w0]
        have hfold : ∀ init : List ℚ,
            (rest.map (fun p => (p.1, c * p.2))).foldl
              (fun acc p => List.zipWith (fun a v => a + v * (p.2 / (c * (w0 + (rest.map (fun q => q.2)).sum)))) acc p.1.data) init
            = rest.foldl
              (fun acc p => List.zipWith (fun a v => a + v * (p.2 / (w0 + (rest.map (fun q => q.2)).sum))) acc p.1.data) init := by
          intro init
          rw [List.foldl_map]
          refine List.foldl_ext _ _ init ?_
          intro a p _
          rw [show ((c * p.2) / (c * (w0 + (rest.map (fun q => q.2)).sum)))
              = p.2 / (w0 + (rest.map (fun q => q.2)).sum) from hw p.2]
        rw [hbase, hfold]

theorem combine_rasters_weight_scaling_witness :
    RPL_Combine_rasters
        (([(⟨[1, 2], some (-9999)⟩, 3), (⟨[3, 4], none⟩, 1)] : List (Raster × ℚ)).map
          (fun p => (p.1, (1/4 : ℚ) * p.2))) =
      RPL_Combine_rasters [(⟨[1, 2], some (-9999)⟩, 3), (⟨[3, 4], none⟩, 1)] :=
  combine_rasters_weight_scaling [(⟨[1, 2], some (-9999)⟩, 3), (⟨[3, 4], none⟩, 1)]
    (1/4) (by norm_num)

/-!
Part B: the orchestration layer.

`engine.py` stores the factor catalog as a list of mutable dicts; caller
configuration entries look the matching dict up, mutate it in place and
append the same dict object to `self.factors`.  The model keeps the
mutable-dict semantics: the catalog state is a map from factor name to
its current parameters, and the resolved factor list is the list of
names (references) in append order.  Rule bounds may be `float("inf")`
in the catalog defaults, hence a dedicated bound type.
-/

/-- A rule bound as stored in catalog dicts: finite float or
`float("inf")`. -/
inductive XVal where
  | fin : ℚ → XVal
  | pinf : XVal
deriving DecidableEq, Repr

/-- An engine-level `(low, high, points)` rule as carried around by the
factor dicts (payload only at this level). -/
abbrev ERule := XVal × XVal × Int

/-- `EngineRestrictedFactor` of engine_models.py. -/
structure RestrictedFactor where
  kind : String
  buffer_distance : Int
deriving DecidableEq, Repr

/-- `EngineSuitabilityFactor` of engine_models.py. -/
structure SuitabilityFactor where
  kind : String
  weight : ℚ
  ranges : Option (List ERule)
deriving DecidableEq, Repr

/-- `EngineConfigs` of engine_models.py. -/
structure EngineConfigs where
  restricted_factors : List RestrictedFactor
  suitability_factors : List SuitabilityFactor
deriving DecidableEq, Repr

/-- The `name` keys of the nine `all_factors` catalog entries of
`_initialize_factors`, in catalog order. -/
def catalogNames : List String :=
  ["rivers", "lakes", "coastlines", "residential", "slope",
   "roads", "powerlines", "solar", "temperature"]

/-- Whether the catalog entry's dataset path ends in `.shp` (the other
three are `.tif` rasters). -/
def datasetIsShp (n : String) : Bool :=
  decide (n ∈ ["rivers", "lakes", "coastlines", "residential", "roads", "powerlines"])

/-- Whether `method_restricted_zone` is `_create_restricted_area` (the
four exclusion-capable kinds) rather than the `lambda *args: None`. -/
def restrictedCapable (n : String) : Bool :=
  decide (n ∈ ["rivers", "lakes", "coastlines", "residential"])

/-- Which `method_evaluate` a catalog entry carries. -/
inductive EvalKind where
  | noEval            -- the `lambda *args: None` of the four exclusion kinds
  | reclassifyDirect  -- `_evaluate_slope` / `_evaluate_radiation` / `_evaluate_temperature`
  | distanceVector    -- `_evaluate_distance_vector`
deriving DecidableEq, Repr

def evalKindOf (n : String) : EvalKind :=
  if n = "slope" ∨ n = "solar" ∨ n = "temperature" then EvalKind.reclassifyDirect
  else if n = "roads" ∨ n = "powerlines" then EvalKind.distanceVector
  else EvalKind.noEval

/-- Initial `buffer_distance` keys of the catalog dicts. -/
def defaultBuffer (n : String) : Option Int :=
  if n = "rivers" ∨ n = "lakes" ∨ n = "coastlines" then some 500
  else if n = "residential" then some 1000
  else none

/-- Initial `score_weight` keys of the catalog dicts. -/
def defaultWeight (n : String) : Option ℚ :=
  if n = "slope" ∨ n = "roads" then some (3/2)
  else if n = "powerlines" then some 2
  else if n = "solar" then some 4
  else if n = "temperature" then some 1
  else none

/-- Initial `evaluate_rules` keys of the catalog dicts. -/
def defaultRules (n : String) : Option (List ERule) :=
  if n = "slope" then
    some [(XVal.fin 0, XVal.fin 5, 10), (XVal.fin 5, XVal.fin 10, 8),
      (XVal.fin 10, XVal.fin 15, 5), (XVal.fin 15, XVal.fin 90, 2)]
  else if n = "roads" ∨ n = "powerlines" then
    some [(XVal.fin 0, XVal.fin 1000, 10), (XVal.fin 1000, XVal.fin 2000, 8),
      (XVal.fin 2000, XVal.fin 3000, 5), (XVal.fin 3000, XVal.pinf, 2)]
  else if n = "solar" then
    some [(XVal.fin 115, XVal.fin 125, 2), (XVal.fin 125, XVal.fin 135, 4),
      (XVal.fin 135, XVal.fin 140, 6), (XVal.fin 140, XVal.fin 145, 8),
      (XVal.fin 145, XVal.fin 150, 9), (XVal.fin 150, XVal.fin 155, 10)]
  else if n = "temperature" then
    some [(XVal.fin (-70), XVal.fin 0, 2), (XVal.fin 0, XVal.fin 50, 5),
      (XVal.fin 50, XVal.fin 120, 10), (XVal.fin 120, XVal.fin 140, 7),
      (XVal.fin 140, XVal.fin 165, 3)]
  else none

/-- The caller-overridable keys of one catalog dict. -/
structure FactorParams where
  buffer : Option Int
  weight : Option ℚ
  rules : Option (List ERule)
deriving DecidableEq, Repr

/-- Catalog dict state before any configuration entry is applied. -/
def baseParams (n : String) : FactorParams :=
  ⟨defaultBuffer n, defaultWeight n, defaultRules n⟩

/-- `config['buffer_distance'] = rfactor.buffer_distance` on the shared
dict of kind `r.kind`. -/
def applyRestrictedStep (st : String → FactorParams) (r : RestrictedFactor) :
    String → FactorParams :=
  fun n => if n = r.kind then { st n with buffer := some r.buffer_distance } else st n

/-- `config['score_weight'] = sfactor.weight` and, when `sfactor.ranges`
is truthy (neither `None` nor the empty list),
`config['evaluate_rules'] = sfactor.ranges`, on the shared dict of kind
`s.kind`. -/
def applySuitabilityStep (st : String → FactorParams) (s : SuitabilityFactor) :
    String → FactorParams :=
  fun n =>
    if n = s.kind then
      { st n with
        weight := some s.weight,
        rules := match s.ranges with
          | some (x :: xs) => some (x :: xs)
          | _ => (st n).rules }
    else st n

/-- `_initialize_factors`: process the restricted list, then the
suitability list; an entry whose kind is not in the catalog is skipped;
a matching entry mutates the shared catalog dict and appends that dict
(modelled by its name) to `self.factors`. -/
def resolveFactors (cfg : EngineConfigs) : (String → FactorParams) × List String :=
  let s1 := cfg.restricted_factors.foldl
    (fun acc r =>
      if r.kind ∈ catalogNames then (applyRestrictedStep acc.1 r, acc.2 ++ [r.kind]) else acc)
    (baseParams, [])
  cfg.suitability_factors.foldl
    (fun acc s =>
      if s.kind ∈ catalogNames then (applySuitabilityStep acc.1 s, acc.2 ++ [s.kind]) else acc)
    s1

/-- `self.factors` after `_initialize_factors`, as the list of catalog
names in append order (one occurrence per matching configuration
entry). -/
def resolvedNames (cfg : EngineConfigs) : List String := (resolveFactors cfg).2

/-- Final state of the catalog dicts after `_initialize_factors`. -/
def resolvedParams (cfg : EngineConfigs) : String → FactorParams := (resolveFactors cfg).1

/-- The primitive-operation invocations of one engine run, at the
granularity of `process_district`'s pipeline stages, plus the
Job Coordinator's scratch-directory actions.  `rmtreeScratch` is in the
vocabulary so that its absence from every run is a statable fact. -/
inductive WorkItem where
  | mkdirScratch
  | selectBoundary
  | prepare (name : String)
  | zone (name : String)
  | unionZones
  | rasterizeMask
  | evaluate (name : String)
  | combine
  | applyMask
  | rmtreeScratch
deriving DecidableEq, Repr

/-- One appended `t_map_task_progress` row: percent, phase, optional
error message. -/
structure PEntry where
  percent : Int
  phase : String
  errMsg : Option String
deriving DecidableEq, Repr

/-- `MapTaskMonitor._clamp_percent`. -/
def clampPercent (v : Int) : Int :=
  if v < 0 then 0 else if v > 100 then 100 else v

def clampEntry (p : PEntry) : PEntry := ⟨clampPercent p.percent, p.phase, p.errMsg⟩

/-- One step of the engine pipeline: a primitive-operation group, a
cooperative-cancellation checkpoint (`monitor.is_cancelled()`), a
progress report, a raised exception, or a `return`. -/
inductive PItem where
  | work : WorkItem → PItem
  | check : PItem
  | prog : PEntry → PItem
  | fail : String → PItem
  | ret : Option String → PItem
deriving DecidableEq, Repr

/-- How `process_district` ended: early `return None` at a checkpoint, a
raised exception, or a normal `return` of the optional result path. -/
inductive POutcome where
  | cancelled
  | err : String → POutcome
  | ok : Option String → POutcome
deriving DecidableEq, Repr

/-- Result of interpreting a pipeline fragment: `stopped = none` means
the fragment was fully traversed; `q` is the next status-read index;
`work` and `progress` are what the fragment performed. -/
structure IRes where
  stopped : Option POutcome
  q : Nat
  work : List WorkItem
  progress : List PEntry
deriving DecidableEq, Repr

/-- Interpreter for pipeline fragments.  The cancellation schedule
`cancelled` gives the result of the k-th task-status read; a checkpoint
consumes one read index and aborts the run when it reads true
(`return None` in the source). -/
def runItems (cancelled : Nat → Bool) : List PItem → Nat → IRes
  | [], q => ⟨none, q, [], []⟩
  | PItem.check :: rest, q =>
    if cancelled q then ⟨some POutcome.cancelled, q + 1, [], []⟩
    else runItems cancelled rest (q + 1)
  | PItem.work w :: rest, q =>
    let r := runItems cancelled rest q
    ⟨r.stopped, r.q, w :: r.work, r.progress⟩
  | PItem.prog p :: rest, q =>
    let r := runItems cancelled rest q
    ⟨r.stopped, r.q, r.work, clampEntry p :: r.progress⟩
  | PItem.fail m :: _, q => ⟨some (POutcome.err m), q, [], []⟩
  | PItem.ret x :: _, q => ⟨some (POutcome.ok x), q, [], []⟩

/-- Output path of `RPL_ExtractByMask`/`RPL_Clip_analysis` in
`_clip_data`. -/
def prepPath (outDir n d : String) : String :=
  outDir ++ "/clip/clip_" ++ n ++ "_" ++ d ++ (if datasetIsShp n then ".shp" else ".tif")

def weightedPath (outDir d : String) : String :=
  outDir ++ "/zone_weighted_" ++ d ++ ".tif"

def maskedPath (outDir d : String) : String :=
  outDir ++ "/zone_masked_" ++ d ++ ".tif"

/-- `prepared_data` after the preparation loop, as an association list in
factor order (duplicate kinds write the same key with the same path). -/
def preparedData (outDir : String) (cfg : EngineConfigs) (d : String) :
    List (String × String) :=
  (resolvedNames cfg).map (fun n => (n, prepPath outDir n d))

/-- Line 377 of engine.py: `self.template_raster = prepared_data["slope"]`
— a plain dict lookup; `none` models the KeyError when no slope factor
was prepared. -/
def templateRasterOf (outDir : String) (cfg : EngineConfigs) (d : String) : Option String :=
  (preparedData outDir cfg d).lookup "slope"

/-- Preparation loop: `method_prepare` (a clip) then a checkpoint, per
factor. -/
def prepItems (names : List String) : List PItem :=
  names.flatMap (fun n => [PItem.work (WorkItem.prepare n), PItem.check])

/-- Restricted-zone loop: `method_restricted_zone` (buffer+clip work for
the four exclusion-capable kinds, the no-op lambda otherwise) then a
checkpoint, per factor. -/
def zoneItems (names : List String) : List PItem :=
  names.flatMap (fun n =>
    (if restrictedCapable n then [PItem.work (WorkItem.zone n)] else []) ++ [PItem.check])

/-- Union + rasterization of the restricted zones, executed exactly when
some factor produced a zone. -/
def maskItems (names : List String) : List PItem :=
  if names.any restrictedCapable then
    [PItem.work WorkItem.unionZones, PItem.work WorkItem.rasterizeMask,
     PItem.prog ⟨50, "restrict", none⟩]
  else []

/-- Evaluation loop: `method_evaluate` (work only when it is not the
no-op lambda) then a checkpoint, per factor. -/
def evalItems (names : List String) : List PItem :=
  names.flatMap (fun n =>
    (if evalKindOf n = EvalKind.noEval then [] else [PItem.work (WorkItem.evaluate n)])
      ++ [PItem.check])

/-- Weighted combination and final masking.  `score_rasters` is nonempty
exactly when some factor has a real `method_evaluate`, and every scoring
kind carries a catalog `score_weight`, so the `weighted_rasters`-empty
warning branch of lines 459-461 is unreachable. -/
def combineItems (outDir d : String) (names : List String) : List PItem :=
  if names.any (fun n => decide (¬ evalKindOf n = EvalKind.noEval)) then
    [PItem.work WorkItem.combine] ++
      (if names.any restrictedCapable then
        [PItem.work WorkItem.applyMask, PItem.prog ⟨95, "combine", none⟩,
         PItem.ret (some (maskedPath outDir d))]
      else
        [PItem.prog ⟨95, "combine", none⟩, PItem.ret (some (weightedPath outDir d))])
  else [PItem.ret none]

/-- `process_district` as a pipeline: entry checkpoint, boundary
selection, preparation loop, then — only if the `prepared_data["slope"]`
template lookup succeeds — zones, mask, evaluation, combination; the
lookup raises KeyError otherwise. -/
def districtPlan (outDir : String) (cfg : EngineConfigs) (d : String) : List PItem :=
  [PItem.check, PItem.work WorkItem.selectBoundary, PItem.prog ⟨10, "district", none⟩]
    ++ prepItems (resolvedNames cfg)
    ++ (if "slope" ∈ resolvedNames cfg then
          zoneItems (resolvedNames cfg) ++ maskItems (resolvedNames cfg)
            ++ evalItems (resolvedNames cfg) ++ [PItem.prog ⟨80, "score", none⟩]
            ++ combineItems outDir d (resolvedNames cfg)
        else [PItem.fail "KeyError: slope"])

/-- `SiteSuitabilityEngine.process_district` for one district, starting
at status-read index `q0`. -/
def process_district (outDir : String) (cfg : EngineConfigs) (d : String)
    (cancelled : Nat → Bool) (q0 : Nat) : IRes :=
  runItems cancelled (districtPlan outDir cfg d) q0

/-- The outcome of a fully interpreted district plan (a Python function
falling off the end would return `None`; every plan branch ends in
`ret`/`fail`, so the default is unreachable). -/
def districtOutcome (r : IRes) : POutcome := r.stopped.getD (POutcome.ok none)

/-- How `SiteSuitabilityEngine.run` ended: an exception propagated out,
or a normal return of the results dict (`none` = the pre-district
checkpoint aborted the loop before the district was processed, `some r`
= the district was processed with result `r`). -/
inductive ROutcome where
  | raised : String → ROutcome
  | done : Option (Option String) → ROutcome
deriving DecidableEq, Repr

structure EngRes where
  outcome : ROutcome
  q : Nat
  work : List WorkItem
  progress : List PEntry
deriving DecidableEq, Repr

/-- `SiteSuitabilityEngine.run` for one selected district code:
raise when the code is not in `consts.districts` (modelled by the
abstract `lookupD`, see below), otherwise pre-district checkpoint,
`process_district`, then the post-district checkpoint guarding the
100-percent progress report.  `consts.py` is not part of the sources, so the
district table is abstracted as `lookupD : code -> Option name`. -/
def engineRun (lookupD : String → Option String) (outDir : String) (cfg : EngineConfigs)
    (district : String) (cancelled : Nat → Bool) (q0 : Nat) : EngRes :=
  match lookupD district with
  | none => ⟨ROutcome.raised "No districts found for the provided codes", q0, [], []⟩
  | some nm =>
    if cancelled q0 then ⟨ROutcome.done none, q0 + 1, [], []⟩
    else
      let r := process_district outDir cfg nm cancelled (q0 + 1)
      match districtOutcome r with
      | POutcome.err m => ⟨ROutcome.raised m, r.q, r.work, r.progress⟩
      | POutcome.cancelled =>
        if cancelled r.q then ⟨ROutcome.done (some none), r.q + 1, r.work, r.progress⟩
        else ⟨ROutcome.done (some none), r.q + 1, r.work,
          r.progress ++ [⟨100, "success", none⟩]⟩
      | POutcome.ok res =>
        if cancelled r.q then ⟨ROutcome.done (some res), r.q + 1, r.work, r.progress⟩
        else ⟨ROutcome.done (some res), r.q + 1, r.work,
          r.progress ++ [⟨100, "success", none⟩]⟩

/-- `MapTaskStatus` of models.py. -/
inductive MapTaskStatus where
  | pending
  | processing
  | success
  | failure
  | cancelled
deriving DecidableEq, Repr

/-- The terminal-state guard of process_map_task line 139. -/
def isTerminal (s : MapTaskStatus) : Bool :=
  match s with
  | MapTaskStatus.success => true
  | MapTaskStatus.failure => true
  | MapTaskStatus.cancelled => true
  | _ => false

/-- The `t_map_task` row as seen by the Job Coordinator.  The stored
factor JSON is modelled as the parsed `EngineConfigs` (the lenient
JSON-parsing path is not under study here); per the concurrency model
only the status field is written externally, so the other fields of the
re-read snapshot coincide with the parameter. -/
structure MapTaskRec where
  id : Nat
  user_id : Nat
  district : String
  status : MapTaskStatus
  started_at : Option Nat
  ended_at : Option Nat
  error_msg : Option String
  cfg : EngineConfigs
deriving DecidableEq, Repr

/-- Error-message truncation of processor.py lines 221-223. -/
def truncate250 (m : String) : String :=
  if m.length > 250 then m.take 247 ++ "..." else m

/-- What one `process_map_task` invocation did: the final task row, whether
the Engine was constructed and run, the primitive work performed, and
the appended progress rows. -/
structure JobResult where
  task : MapTaskRec
  engineRan : Bool
  work : List WorkItem
  progress : List PEntry
deriving DecidableEq, Repr

/-- `process_map_task` of processor.py.  Status reads are numbered from
the defensive re-read (index 0); `engineRun` consumes indices from 1.
`tNow`/`tEnd` stand for the wall-clock values of the two
`datetime.now` calls.  When the run ends without a terminal write of its
own and a status read observed the external Cancelled flip, the row
keeps that externally written Cancelled status.  The body performs no
scratch-directory removal: the `WorkItem.rmtreeScratch` action is never
emitted. -/
def process_map_task (lookupD : String → Option String) (baseOut : String)
    (cancelled : Nat → Bool) (tNow tEnd : Nat) (task : MapTaskRec) : JobResult :=
  if isTerminal task.status then ⟨task, false, [], []⟩
  else
    let t1 : MapTaskRec := { task with
      status := MapTaskStatus.processing,
      started_at := some (task.started_at.getD tNow),
      error_msg := none }
    if cancelled 0 then ⟨{ t1 with status := MapTaskStatus.cancelled }, false, [], []⟩
    else
      let outDir := baseOut ++ "/engine/task-" ++ toString task.id
      let er := engineRun lookupD outDir task.cfg task.district cancelled 1
      match er.outcome with
      | ROutcome.raised m =>
        let msg := truncate250 m
        ⟨{ t1 with
            status := MapTaskStatus.failure
            error_msg := some msg
            ended_at := some tEnd },
          true, WorkItem.mkdirScratch :: er.work,
          ⟨0, "init", none⟩ :: (er.progress ++ [⟨0, "error", some msg⟩])⟩
      | ROutcome.done _ =>
        if cancelled er.q then
          ⟨{ t1 with status := MapTaskStatus.cancelled }, true,
            WorkItem.mkdirScratch :: er.work, ⟨0, "init", none⟩ :: er.progress⟩
        else
          ⟨{ t1 with
              status := MapTaskStatus.success
              ended_at := some tEnd }, true,
            WorkItem.mkdirScratch :: er.work,
            ⟨0, "init", none⟩ :: (er.progress ++ [⟨100, "success", none⟩])⟩

lemma runItems_q_le (cancelled : Nat → Bool) (items : List PItem) :
    ∀ q, q ≤ (runItems cancelled items q).q := by
  induction items with
  | nil => intro q; exact le_refl q
  | cons it rest ih =>
    intro q
    cases it with
    | check =>
      by_cases h : cancelled q = true
      · simp [runItems, h]
      · simp only [runItems, if_neg h]
        exact le_trans (Nat.le_succ q) (ih (q + 1))
    | work w => simpa [runItems] using ih q
    | prog p => simpa [runItems] using ih q
    | fail m => simp [runItems]
    | ret x => simp [runItems]

lemma runItems_cancelled_of_flip (cancelled : Nat → Bool) (items : List PItem) :
    ∀ q, (∃ k, q ≤ k ∧ k < (runItems cancelled items q).q ∧ cancelled k = true) →
      (runItems cancelled items q).stopped = some POutcome.cancelled := by
  induction items with
  | nil =>
    rintro q ⟨k, hqk, hk, _⟩
    exact absurd (lt_of_le_of_lt hqk hk) (lt_irrefl q)
  | cons it rest ih =>
    rintro q ⟨k, hqk, hk, hc⟩
    cases it with
    | check =>
      by_cases h : cancelled q = true
      · simp [runItems, h]
      · simp only [runItems, if_neg h] at hk ⊢
        refine ih (q + 1) ⟨k, ?_, hk, hc⟩
        rcases Nat.eq_or_lt_of_le hqk with rfl | hlt
        · exact absurd hc h
        · exact hlt
    | work w =>
      simp only [runItems] at hk ⊢
      exact ih q ⟨k, hqk, hk, hc⟩
    | prog p =>
      simp only [runItems] at hk ⊢
      exact ih q ⟨k, hqk, hk, hc⟩
    | fail m =>
      simp only [runItems] at hk
      exact absurd (lt_of_le_of_lt hqk hk) (lt_irrefl q)
    | ret x =>
      simp only [runItems] at hk
      exact absurd (lt_of_le_of_lt hqk hk) (lt_irrefl q)

lemma runItems_work_prefix (cancelled : Nat → Bool) (items : List PItem) :
    ∀ q qf, ∃ t, (runItems cancelled items q).work ++ t
      = (runItems (fun _ => false) items qf).work := by
  induction items with
  | nil => intro q qf; exact ⟨[], rfl⟩
  | cons it rest ih =>
    intro q qf
    cases it with
    | check =>
      by_cases h : cancelled q = true
      · simp only [runItems, if_pos h]
        exact ⟨(runItems (fun _ => false) (PItem.check :: rest) qf).work, rfl⟩
      · simp only [runItems, if_neg h, Bool.false_eq_true, if_false]
        exact ih (q + 1) (qf + 1)
    | work w =>
      rcases ih q qf with ⟨t, ht⟩
      exact ⟨t, by simp [runItems, ht]⟩
    | prog p =>
      rcases ih q qf with ⟨t, ht⟩
      exact ⟨t, by simp [runItems, ht]⟩
    | fail m => exact ⟨[], rfl⟩
    | ret x => exact ⟨[], rfl⟩

lemma runItems_work_mem (cancelled : Nat → Bool) (items : List PItem) :
    ∀ q w, w ∈ (runItems cancelled items q).work → PItem.work w ∈ items := by
  induction items with
  | nil => intro q w h; exact absurd h (List.not_mem_nil w)
  | cons it rest ih =>
    intro q w h
    cases it with
    | check =>
      by_cases hc : cancelled q = true
      · simp [runItems, hc] at h
      · simp only [runItems, if_neg hc, Bool.false_eq_true, if_false] at h
        exact List.mem_cons_of_mem _ (ih (q + 1) w h)
    | work v =>
      simp only [runItems, List.mem_cons] at h
      rcases h with rfl | h
      · exact List.mem_cons_self _ _
      · exact List.mem_cons_of_mem _ (ih q w h)
    | prog p =>
      simp only [runItems] at h
      exact List.mem_cons_of_mem _ (ih q w h)
    | fail m => simp [runItems] at h
    | ret x => simp [runItems] at h

lemma runItems_append_go (cancelled : Nat → Bool) (A B : List PItem) :
    ∀ q, (runItems cancelled A q).stopped = none →
      runItems cancelled (A ++ B) q =
        ⟨(runItems cancelled B (runItems cancelled A q).q).stopped,
          (runItems cancelled B (runItems cancelled A q).q).q,
          (runItems cancelled A q).work ++ (runItems cancelled B (runItems cancelled A q).q).work,
          (runItems cancelled A q).progress
            ++ (runItems cancelled B (runItems cancelled A q).q).progress⟩ := by
  induction A with
  | nil => intro q _; simp [runItems]
  | cons it rest ih =>
    intro q hst
    cases it with
    | check =>
      by_cases h : cancelled q = true
      · simp [runItems, h] at hst
      · simp only [List.cons_append, runItems, if_neg h, Bool.false_eq_true, if_false] at hst ⊢
        exact ih (q + 1) hst
    | work w =>
      simp only [List.cons_append, runItems, List.append_eq] at hst ⊢
      rw [ih q hst]
    | prog p =>
      simp only [List.cons_append, runItems, List.append_eq] at hst ⊢
      rw [ih q hst]
    | fail m => simp [runItems] at hst
    | ret x => simp [runItems] at hst

/-- `new or old` on optional dict keys: the last write wins. -/
def overrideOpt {α : Type} (new old : Option α) : Option α :=
  match new with
  | some x => some x
  | none => old

/-- Buffer distance of the last restricted-factor entry of kind `n`. -/
def lastRestrictedBuffer (rs : List RestrictedFactor) (n : String) : Option Int :=
  rs.foldl (fun a r => if r.kind = n then some r.buffer_distance else a) none

/-- Weight of the last suitability-factor entry of kind `n`. -/
def lastSuitabilityWeight (ss : List SuitabilityFactor) (n : String) : Option ℚ :=
  ss.foldl (fun a s => if s.kind = n then some s.weight else a) none

lemma foldl_override {α β : Type} (p : β → Prop) [DecidablePred p] (g : β → α) :
    ∀ (l : List β) (a : Option α),
      l.foldl (fun acc b => if p b then some (g b) else acc) a
        = overrideOpt (l.foldl (fun acc b => if p b then some (g b) else acc) none) a := by
  intro l
  induction l with
  | nil => intro a; rfl
  | cons b rest ih =>
    intro a
    simp only [List.foldl_cons]
    rw [ih (if p b then some (g b) else a), ih (if p b then some (g b) else none)]
    rcases hrest : rest.foldl (fun acc b => if p b then some (g b) else acc) none with _ | x
    · by_cases hb : p b <;> simp [hb, overrideOpt]
    · simp [overrideOpt]

lemma resolveR_buffer (n : String) (hn : n ∈ catalogNames) (rs : List RestrictedFactor) :
    ∀ acc : (String → FactorParams) × List String,
      (((rs.foldl (fun acc r =>
          if r.kind ∈ catalogNames then (applyRestrictedStep acc.1 r, acc.2 ++ [r.kind])
          else acc) acc).1) n).buffer
        = overrideOpt (lastRestrictedBuffer rs n) ((acc.1 n).buffer) := by
  induction rs with
  | nil => intro acc; rfl
  | cons r rest ih =>
    intro acc
    have hlast : lastRestrictedBuffer (r :: rest) n
        = overrideOpt (lastRestrictedBuffer rest n)
            (if r.kind = n then some r.buffer_distance else none) := by
      unfold lastRestrictedBuffer
      simp only [List.foldl_cons]
      exact foldl_override (fun r : RestrictedFactor => r.kind = n)
        (fun r => r.buffer_distance) rest _
    by_cases h : r.kind ∈ catalogNames
    · simp only [List.foldl_cons, if_pos h]
      rw [ih]
      have hstep : ((applyRestrictedStep acc.1 r) n).buffer
          = if r.kind = n then some r.buffer_distance else (acc.1 n).buffer := by
        unfold applyRestrictedStep
        by_cases hb : n = r.kind
        · simp [hb]
        · rw [if_neg hb, if_neg (fun hh : r.kind = n => hb hh.symm)]
      rw [hstep, hlast]
      rcases lastRestrictedBuffer rest n with _ | x
      · by_cases hb : r.kind = n <;> simp [hb, overrideOpt]
      · simp [overrideOpt]
    · have hb : ¬ r.kind = n := fun hh => h (hh ▸ hn)
      simp only [List.foldl_cons, if_neg h]
      rw [ih, hlast, if_neg hb]
      rcases lastRestrictedBuffer rest n with _ | x <;> simp [overrideOpt]

lemma resolveR_weight (n : String) (rs : List RestrictedFactor) :
    ∀ acc : (String → FactorParams) × List String,
      (((rs.foldl (fun acc r =>
          if r.kind ∈ catalogNames then (applyRestrictedStep acc.1 r, acc.2 ++ [r.kind])
          else acc) acc).1) n).weight = (acc.1 n).weight := by
  induction rs with
  | nil => intro acc; rfl
  | cons r rest ih =>
    intro acc
    by_cases h : r.kind ∈ catalogNames
    · simp only [List.foldl_cons, if_pos h]
      rw [ih]
      unfold applyRestrictedStep
      by_cases hb : n = r.kind <;> simp [hb]
    · simp only [List.foldl_cons, if_neg h]
      exact ih acc

lemma resolveS_buffer (n : String) (ss : List SuitabilityFactor) :
    ∀ acc : (String → FactorParams) × List String,
      (((ss.foldl (fun acc s =>
          if s.kind ∈ catalogNames then (applySuitabilityStep acc.1 s, acc.2 ++ [s.kind])
          else acc) acc).1) n).buffer = (acc.1 n).buffer := by
  induction ss with
  | nil => intro acc; rfl
  | cons s rest ih =>
    intro acc
    by_cases h : s.kind ∈ catalogNames
    · simp only [List.foldl_cons, if_pos h]
      rw [ih]
      unfold applySuitabilityStep
      by_cases hb : n = s.kind <;> simp [hb]
    · simp only [List.foldl_cons, if_neg h]
      exact ih acc

lemma resolveS_weight (n : String) (hn : n ∈ catalogNames) (ss : List SuitabilityFactor) :
    ∀ acc : (String → FactorParams) × List String,
      (((ss.foldl (fun acc s =>
          if s.kind ∈ catalogNames then (applySuitabilityStep acc.1 s, acc.2 ++ [s.kind])
          else acc) acc).1) n).weight
        = overrideOpt (lastSuitabilityWeight ss n) ((acc.1 n).weight) := by
  induction ss with
  | nil => intro acc; rfl
  | cons s rest ih =>
    intro acc
    have hlast : lastSuitabilityWeight (s :: rest) n
        = overrideOpt (lastSuitabilityWeight rest n)
            (if s.kind = n then some s.weight else none) := by
      unfold lastSuitabilityWeight
      simp only [List.foldl_cons]
      exact foldl_override (fun s : SuitabilityFactor => s.kind = n) (fun s => s.weight) rest _
    by_cases h : s.kind ∈ catalogNames
    · simp only [List.foldl_cons, if_pos h]
      rw [ih]
      have hstep : ((applySuitabilityStep acc.1 s) n).weight
          = if s.kind = n then some s.weight else (acc.1 n).weight := by
        unfold applySuitabilityStep
        by_cases hb : n = s.kind
        · simp [hb]
        · rw [if_neg hb, if_neg (fun hh : s.kind = n => hb hh.symm)]
      rw [hstep, hlast]
      rcases lastSuitabilityWeight rest n with _ | x
      · by_cases hb : s.kind = n <;> simp [hb, overrideOpt]
      · simp [overrideOpt]
    · have hb : ¬ s.kind = n := fun hh => h (hh ▸ hn)
      simp only [List.foldl_cons, if_neg h]
      rw [ih, hlast, if_neg hb]
      rcases lastSuitabilityWeight rest n with _ | x <;> simp [overrideOpt]

lemma resolveR_snd (rs : List RestrictedFactor) :
    ∀ acc : (String → FactorParams) × List String,
      (rs.foldl (fun acc r =>
          if r.kind ∈ catalogNames then (applyRestrictedStep acc.1 r, acc.2 ++ [r.kind])
          else acc) acc).2
        = acc.2 ++ (rs.filter (fun r => decide (r.kind ∈ catalogNames))).map
            (fun r => r.kind) := by
  induction rs with
  | nil => intro acc; simp
  | cons r rest ih =>
    intro acc
    by_cases h : r.kind ∈ catalogNames
    · simp only [List.foldl_cons, if_pos h, List.filter_cons, decide_eq_true h, if_true]
      rw [ih]
      simp
    · simp only [List.foldl_cons, if_neg h, List.filter_cons]
      rw [ih]
      simp [h]

lemma resolveS_snd (ss : List SuitabilityFactor) :
    ∀ acc : (String → FactorParams) × List String,
      (ss.foldl (fun acc s =>
          if s.kind ∈ catalogNames then (applySuitabilityStep acc.1 s, acc.2 ++ [s.kind])
          else acc) acc).2
        = acc.2 ++ (ss.filter (fun s => decide (s.kind ∈ catalogNames))).map
            (fun s => s.kind) := by
  induction ss with
  | nil => intro acc; simp
  | cons s rest ih =>
    intro acc
    by_cases h : s.kind ∈ catalogNames
    · simp only [List.foldl_cons, if_pos h, List.filter_cons, decide_eq_true h, if_true]
      rw [ih]
      simp
    · simp only [List.foldl_cons, if_neg h, List.filter_cons]
      rw [ih]
      simp [h]

/-- The resolved factor list is exactly the known-kind entries of the two
configuration lists, restricted first, in request order, duplicates
preserved. -/
lemma resolvedNames_eq (cfg : EngineConfigs) :
    resolvedNames cfg
      = (cfg.restricted_factors.filter (fun r => decide (r.kind ∈ catalogNames))).map
          (fun r => r.kind)
        ++ (cfg.suitability_factors.filter (fun s => decide (s.kind ∈ catalogNames))).map
            (fun s => s.kind) := by
  unfold resolvedNames resolveFactors
  rw [resolveS_snd, resolveR_snd]
  simp

lemma count_known_kinds (n : String) (hn : n ∈ catalogNames) (rs : List RestrictedFactor) :
    ((rs.filter (fun r => decide (r.kind ∈ catalogNames))).map (fun r => r.kind)).count n
      = (rs.filter (fun r => decide (r.kind = n))).length := by
  induction rs with
  | nil => rfl
  | cons r rest ih =>
    by_cases hb : r.kind = n
    · have h : r.kind ∈ catalogNames := hb ▸ hn
      simp only [List.filter_cons, decide_eq_true h, decide_eq_true hb, if_true,
        List.map_cons, List.length_cons]
      rw [List.count_cons]
      simp [hb, ih]
    · by_cases h : r.kind ∈ catalogNames
      · simp only [List.filter_cons, decide_eq_true h, if_true, List.map_cons]
        rw [List.count_cons]
        simp [hb, ih]
      · simp only [List.filter_cons]
        simp [h, hb, ih]

lemma count_known_kinds_suit (n : String) (hn : n ∈ catalogNames) (ss : List SuitabilityFactor) :
    ((ss.filter (fun s => decide (s.kind ∈ catalogNames))).map (fun s => s.kind)).count n
      = (ss.filter (fun s => decide (s.kind = n))).length := by
  induction ss with
  | nil => rfl
  | cons s rest ih =>
    by_cases hb : s.kind = n
    · have h : s.kind ∈ catalogNames := hb ▸ hn
      simp only [List.filter_cons, decide_eq_true h, decide_eq_true hb, if_true,
        List.map_cons, List.length_cons]
      rw [List.count_cons]
      simp [hb, ih]
    · by_cases h : s.kind ∈ catalogNames
      · simp only [List.filter_cons, decide_eq_true h, if_true, List.map_cons]
        rw [List.count_cons]
        simp [hb, ih]
      · simp only [List.filter_cons]
        simp [h, hb, ih]

/-- C8 (amended): resolution keeps one factor occurrence per matching
configuration entry — a kind supplied several times appears that many
times in `self.factors` — and, because all occurrences share one mutable
catalog dict, the LAST occurrence's parameters take effect for every
occurrence: the effective buffer distance is the last restricted entry's
(catalog default otherwise) and the effective score weight is the last
suitability entry's (catalog default otherwise). -/
theorem resolve_duplicates_last_occurrence_wins (cfg : EngineConfigs) (n : String)
    (hn : n ∈ catalogNames) :
    (resolvedNames cfg).count n
        = (cfg.restricted_factors.filter (fun r => decide (r.kind = n))).length
          + (cfg.suitability_factors.filter (fun s => decide (s.kind = n))).length
    ∧ (resolvedParams cfg n).buffer
        = overrideOpt (lastRestrictedBuffer cfg.restricted_factors n) (defaultBuffer n)
    ∧ (resolvedParams cfg n).weight
        = overrideOpt (lastSuitabilityWeight cfg.suitability_factors n) (defaultWeight n) := by
  refine ⟨?_, ?_, ?_⟩
  · rw [resolvedNames_eq, List.count_append, count_known_kinds n hn,
      count_known_kinds_suit n hn]
  · unfold resolvedParams resolveFactors
    rw [resolveS_buffer, resolveR_buffer n hn]
    rfl
  · unfold resolvedParams resolveFactors
    rw [resolveS_weight n hn, resolveR_weight]
    rfl

theorem resolve_duplicates_last_occurrence_wins_witness :
    (resolvedNames ⟨[⟨"lakes", 300⟩], [⟨"slope", 2, none⟩]⟩).count "lakes"
        = (([⟨"lakes", 300⟩] : List RestrictedFactor).filter
            (fun r => decide (r.kind = "lakes"))).length
          + (([⟨"slope", 2, none⟩] : List SuitabilityFactor).filter
              (fun s => decide (s.kind = "lakes"))).length
    ∧ (resolvedParams ⟨[⟨"lakes", 300⟩], [⟨"slope", 2, none⟩]⟩ "lakes").buffer
        = overrideOpt (lastRestrictedBuffer [⟨"lakes", 300⟩] "lakes") (defaultBuffer "lakes")
    ∧ (resolvedParams ⟨[⟨"lakes", 300⟩], [⟨"slope", 2, none⟩]⟩ "lakes").weight
        = overrideOpt (lastSuitabilityWeight [⟨"slope", 2, none⟩] "lakes")
            (defaultWeight "lakes") :=
  resolve_duplicates_last_occurrence_wins ⟨[⟨"lakes", 300⟩], [⟨"slope", 2, none⟩]⟩ "lakes"
    (by decide)

/-- C8 (counterexample): two restricted entries of kind `rivers` with
buffer distances 100 then 200 resolve to TWO occurrences of `rivers` in
the factor list (not one), and the effective buffer distance is the
second occurrence's 200 (not the first occurrence's 100). -/
theorem resolve_duplicate_rivers_counterexample :
    (resolvedNames ⟨[⟨"rivers", 100⟩, ⟨"rivers", 200⟩], []⟩).count "rivers" = 2
    ∧ (resolvedParams ⟨[⟨"rivers", 100⟩, ⟨"rivers", 200⟩], []⟩ "rivers").buffer = some 200 := by
  refine ⟨by decide, by decide⟩

lemma runItems_false_none_of_benign (items : List PItem)
    (hb : ∀ it ∈ items, (∀ m, ¬ it = PItem.fail m) ∧ (∀ x, ¬ it = PItem.ret x)) :
    ∀ q, (runItems (fun _ => false) items q).stopped = none := by
  induction items with
  | nil => intro q; rfl
  | cons it rest ih =>
    intro q
    have hit := hb it (List.mem_cons_self it rest)
    have hrest : ∀ jt ∈ rest, (∀ m, ¬ jt = PItem.fail m) ∧ (∀ x, ¬ jt = PItem.ret x) :=
      fun jt hj => hb jt (List.mem_cons_of_mem it hj)
    cases it with
    | check => simpa [runItems] using ih hrest (q + 1)
    | work w => simpa [runItems] using ih hrest q
    | prog p => simpa [runItems] using ih hrest q
    | fail m => exact absurd rfl (hit.1 m)
    | ret x => exact absurd rfl (hit.2 x)

lemma prepItems_benign (names : List String) :
    ∀ it ∈ prepItems names, (∀ m, ¬ it = PItem.fail m) ∧ (∀ x, ¬ it = PItem.ret x) := by
  intro it h
  simp only [prepItems, List.mem_flatMap] at h
  rcases h with ⟨n, _, h⟩
  rcases List.mem_cons.mp h with rfl | h
  · exact ⟨fun m => by simp, fun x => by simp⟩
  · rcases List.mem_cons.mp h with rfl | h
    · exact ⟨fun m => by simp, fun x => by simp⟩
    · exact absurd h (List.not_mem_nil it)

/-- Without a factor of kind `slope`, an uncancelled `process_district`
run reaches line 377 and dies there with the KeyError: there is no
fallback template. -/
lemma process_district_no_slope (outDir : String) (cfg : EngineConfigs) (d : String)
    (q0 : Nat) (h : ¬ "slope" ∈ resolvedNames cfg) :
    districtOutcome (process_district outDir cfg d (fun _ => false) q0)
      = POutcome.err "KeyError: slope" := by
  unfold process_district districtPlan
  rw [if_neg h]
  have hbenA : ∀ it ∈ ([PItem.check, PItem.work WorkItem.selectBoundary,
      PItem.prog ⟨10, "district", none⟩] ++ prepItems (resolvedNames cfg)),
      (∀ m, ¬ it = PItem.fail m) ∧ (∀ x, ¬ it = PItem.ret x) := by
    intro it hit
    rcases List.mem_append.mp hit with hit | hit
    · rcases List.mem_cons.mp hit with rfl | hit
      · exact ⟨fun m => by simp, fun x => by simp⟩
      · rcases List.mem_cons.mp hit with rfl | hit
        · exact ⟨fun m => by simp, fun x => by simp⟩
        · rcases List.mem_cons.mp hit with rfl | hit
          · exact ⟨fun m => by simp, fun x => by simp⟩
          · exact absurd hit (List.not_mem_nil it)
    · exact prepItems_benign (resolvedNames cfg) it hit
  have hstop := runItems_false_none_of_benign _ hbenA q0
  rw [runItems_append_go (fun _ => false) _ _ q0 hstop]
  simp [districtOutcome, runItems]

lemma no_slope_resolved (cfg : EngineConfigs)
    (hsuit : cfg.suitability_factors = [])
    (hslope : ∀ r ∈ cfg.restricted_factors, ¬ r.kind = "slope") :
    ¬ "slope" ∈ resolvedNames cfg := by
  rw [resolvedNames_eq, hsuit]
  simp only [List.filter_nil, List.map_nil, List.append_nil, List.mem_map, List.mem_filter]
  rintro ⟨r, ⟨hr, _⟩, hk⟩
  exact hslope r hr hk

/-- C3 (amended): a configuration with zero scoring factors (and no
restricted entry of kind `slope` rescuing the template lookup) makes
`process_district` raise the KeyError at line 377 instead of returning
`None`; `process_map_task` catches it and marks the task Failure with the
non-empty truncated message. -/
theorem no_scoring_factors_marks_failure (lookupD : String → Option String)
    (baseOut : String) (tNow tEnd : Nat) (task : MapTaskRec) (nm : String)
    (hterm : isTerminal task.status = false)
    (hdist : lookupD task.district = some nm)
    (hsuit : task.cfg.suitability_factors = [])
    (hslope : ∀ r ∈ task.cfg.restricted_factors, ¬ r.kind = "slope") :
    districtOutcome (process_district (baseOut ++ "/engine/task-" ++ toString task.id)
        task.cfg nm (fun _ => false) 2) = POutcome.err "KeyError: slope"
    ∧ (process_map_task lookupD baseOut (fun _ => false) tNow tEnd task).task.status
        = MapTaskStatus.failure
    ∧ (process_map_task lookupD baseOut (fun _ => false) tNow tEnd task).task.error_msg
        = some "KeyError: slope"
    ∧ ¬ ("KeyError: slope" : String) = "" := by
  have hns := no_slope_resolved task.cfg hsuit hslope
  have h1 := process_district_no_slope (baseOut ++ "/engine/task-" ++ toString task.id)
    task.cfg nm 2 hns
  have her : engineRun lookupD (baseOut ++ "/engine/task-" ++ toString task.id)
      task.cfg task.district (fun _ => false) 1
      = ⟨ROutcome.raised "KeyError: slope",
          (process_district (baseOut ++ "/engine/task-" ++ toString task.id)
            task.cfg nm (fun _ => false) 2).q,
          (process_district (baseOut ++ "/engine/task-" ++ toString task.id)
            task.cfg nm (fun _ => false) 2).work,
          (process_district (baseOut ++ "/engine/task-" ++ toString task.id)
            task.cfg nm (fun _ => false) 2).progress⟩ := by
    unfold engineRun
    rw [hdist]
    simp only [Bool.false_eq_true, if_false]
    rw [h1]
  have htr : truncate250 "KeyError: slope" = "KeyError: slope" := by decide
  have hmt : process_map_task lookupD baseOut (fun _ => false) tNow tEnd task
      = ⟨{ task with
            status := MapTaskStatus.failure
            started_at := some (task.started_at.getD tNow)
            error_msg := some "KeyError: slope"
            ended_at := some tEnd },
          true,
          WorkItem.mkdirScratch :: (process_district
            (baseOut ++ "/engine/task-" ++ toString task.id)
            task.cfg nm (fun _ => false) 2).work,
          ⟨0, "init", none⟩ :: ((process_district
            (baseOut ++ "/engine/task-" ++ toString task.id)
            task.cfg nm (fun _ => false) 2).progress
              ++ [⟨0, "error", some "KeyError: slope"⟩])⟩ := by
    unfold process_map_task
    rw [hterm]
    simp only [Bool.false_eq_true, if_false]
    rw [her]
    simp [htr]
  refine ⟨h1, ?_, ?_, by decide⟩
  · rw [hmt]
  · rw [hmt]

theorem no_scoring_factors_marks_failure_witness :
    districtOutcome (process_district ("out" ++ "/engine/task-" ++ toString (1:Nat))
        (⟨[], []⟩ : EngineConfigs) "D1" (fun _ => false) 2) = POutcome.err "KeyError: slope"
    ∧ (process_map_task (fun c => if c = "001" then some "D1" else none) "out"
        (fun _ => false) 10 11
        ⟨1, 7, "001", MapTaskStatus.pending, none, none, none, ⟨[], []⟩⟩).task.status
        = MapTaskStatus.failure
    ∧ (process_map_task (fun c => if c = "001" then some "D1" else none) "out"
        (fun _ => false) 10 11
        ⟨1, 7, "001", MapTaskStatus.pending, none, none, none, ⟨[], []⟩⟩).task.error_msg
        = some "KeyError: slope"
    ∧ ¬ ("KeyError: slope" : String) = "" :=
  no_scoring_factors_marks_failure (fun c => if c = "001" then some "D1" else none)
    "out" 10 11 ⟨1, 7, "001", MapTaskStatus.pending, none, none, none, ⟨[], []⟩⟩ "D1"
    (by decide) (by decide) rfl (by decide)

/-- C3 (counterexample): the configuration with one restricted `rivers`
factor and zero scoring factors — `process_district` does NOT return
`None`: it raises the KeyError at the template lookup. -/
theorem no_scoring_factors_counterexample :
    ¬ districtOutcome (process_district "out" ⟨[⟨"rivers", 500⟩], []⟩ "D1"
        (fun _ => false) 2) = POutcome.ok none
    ∧ districtOutcome (process_district "out" ⟨[⟨"rivers", 500⟩], []⟩ "D1"
        (fun _ => false) 2) = POutcome.err "KeyError: slope" := by
  refine ⟨by decide, by decide⟩

/-- C1: the template of step 4 is the bare dict lookup
`prepared_data["slope"]` — no priority-ordered list, no fallback clip.
On a configuration with no continuous-raster factor (here: one `roads`
scoring factor) no template exists and the run aborts with the KeyError
instead of proceeding; when a slope factor is present the template is
its prepared raster. -/
theorem template_is_slope_lookup_no_fallback :
    templateRasterOf "out" ⟨[], [⟨"roads", 1, none⟩]⟩ "D1" = none
    ∧ districtOutcome (process_district "out" ⟨[], [⟨"roads", 1, none⟩]⟩ "D1"
        (fun _ => false) 0) = POutcome.err "KeyError: slope"
    ∧ templateRasterOf "out" ⟨[], [⟨"slope", 1, none⟩]⟩ "D1"
        = some (prepPath "out" "slope" "D1") := by
  refine ⟨by decide, by decide, by decide⟩

/-- C5: invoking the Job Coordinator on a task whose status is already
terminal performs no Engine execution and leaves status, timestamps,
error message and progress history unchanged. -/
theorem process_map_task_terminal_noop (lookupD : String → Option String)
    (baseOut : String) (cancelled : Nat → Bool) (tNow tEnd : Nat) (task : MapTaskRec)
    (h : isTerminal task.status = true) :
    process_map_task lookupD baseOut cancelled tNow tEnd task
      = ⟨task, false, [], []⟩ := by
  unfold process_map_task
  rw [h]
  simp

theorem process_map_task_terminal_noop_witness :
    process_map_task (fun c => if c = "001" then some "D1" else none) "out"
        (fun _ => true) 10 11
        ⟨2, 7, "001", MapTaskStatus.success, some 3, some 4, none, ⟨[], []⟩⟩
      = ⟨⟨2, 7, "001", MapTaskStatus.success, some 3, some 4, none, ⟨[], []⟩⟩,
          false, [], []⟩ :=
  process_map_task_terminal_noop (fun c => if c = "001" then some "D1" else none) "out"
    (fun _ => true) 10 11
    ⟨2, 7, "001", MapTaskStatus.success, some 3, some 4, none, ⟨[], []⟩⟩ (by decide)

lemma districtPlan_no_rmtree (outDir : String) (cfg : EngineConfigs) (d : String) :
    ¬ PItem.work WorkItem.rmtreeScratch ∈ districtPlan outDir cfg d := by
  intro h
  unfold districtPlan at h
  rcases List.mem_append.mp h with h | h
  · rcases List.mem_append.mp h with h | h
    · simp at h
    · simp only [prepItems, List.mem_flatMap] at h
      rcases h with ⟨n, _, h⟩
      simp at h
  · by_cases h1 : "slope" ∈ resolvedNames cfg
    · rw [if_pos h1] at h
      rcases List.mem_append.mp h with h | h
      · rcases List.mem_append.mp h with h | h
        · rcases List.mem_append.mp h with h | h
          · rcases List.mem_append.mp h with h | h
            · simp only [zoneItems, List.mem_flatMap] at h
              rcases h with ⟨n, _, h⟩
              rcases List.mem_append.mp h with h | h
              · by_cases hc : restrictedCapable n = true
                · rw [if_pos hc] at h
                  simp at h
                · rw [if_neg hc] at h
                  simp at h
              · simp at h
            · by_cases hc : (resolvedNames cfg).any restrictedCapable = true
              · simp only [maskItems, if_pos hc] at h
                simp at h
              · simp only [maskItems, if_neg hc] at h
                simp at h
          · simp only [evalItems, List.mem_flatMap] at h
            rcases h with ⟨n, _, h⟩
            rcases List.mem_append.mp h with h | h
            · by_cases hc : evalKindOf n = EvalKind.noEval
              · rw [if_pos hc] at h
                simp at h
              · rw [if_neg hc] at h
                simp at h
            · simp at h
        · simp at h
      · by_cases hc : (resolvedNames cfg).any
            (fun n => decide (¬ evalKindOf n = EvalKind.noEval)) = true
        · simp only [combineItems, if_pos hc] at h
          rcases List.mem_append.mp h with h | h
          · simp at h
          · by_cases hm : (resolvedNames cfg).any restrictedCapable = true
            · rw [if_pos hm] at h
              simp at h
            · rw [if_neg hm] at h
              simp at h
        · simp only [combineItems, if_neg hc] at h
          simp at h
    · rw [if_neg h1] at h
      simp at h

lemma engineRun_no_rmtree (lookupD : String → Option String) (outDir : String)
    (cfg : EngineConfigs) (district : String) (cancelled : Nat → Bool) (q0 : Nat) :
    ¬ WorkItem.rmtreeScratch ∈ (engineRun lookupD outDir cfg district cancelled q0).work := by
  intro h
  unfold engineRun at h
  rcases hL : lookupD district with _ | nm <;> rw [hL] at h
  · simp at h
  · dsimp only at h
    by_cases hc : cancelled q0 = true
    · rw [if_pos hc] at h
      simp at h
    · rw [if_neg hc] at h
      have hmem : ¬ WorkItem.rmtreeScratch
          ∈ (process_district outDir cfg nm cancelled (q0 + 1)).work := by
        intro hw
        exact districtPlan_no_rmtree outDir cfg nm
          (runItems_work_mem cancelled (districtPlan outDir cfg nm) (q0 + 1)
            WorkItem.rmtreeScratch hw)
      rcases hdo : districtOutcome (process_district outDir cfg nm cancelled (q0 + 1))
        with _ | m | res <;> rw [hdo] at h <;> dsimp only at h
      · by_cases hq : cancelled (process_district outDir cfg nm cancelled (q0 + 1)).q = true
        · rw [if_pos hq] at h
          exact hmem h
        · rw [if_neg hq] at h
          exact hmem h
      · exact hmem h
      · by_cases hq : cancelled (process_district outDir cfg nm cancelled (q0 + 1)).q = true
        · rw [if_pos hq] at h
          exact hmem h
        · rw [if_neg hq] at h
          exact hmem h

/-- C9: `process_map_task` never removes the scratch output directory:
no invocation — success, failure, or cancellation alike — ever performs
the `rmtreeScratch` action, although the directory is created
(`mkdirScratch`) on every run reaching Engine construction.  This
contradicts the spec and the repository's own tests, which expect a
final `shutil.rmtree` with failures logged. -/
theorem process_map_task_never_removes_scratch (lookupD : String → Option String)
    (baseOut : String) (cancelled : Nat → Bool) (tNow tEnd : Nat) (task : MapTaskRec) :
    ¬ WorkItem.rmtreeScratch
      ∈ (process_map_task lookupD baseOut cancelled tNow tEnd task).work := by
  intro h
  unfold process_map_task at h
  by_cases ht : isTerminal task.status = true
  · rw [ht] at h
    simp at h
  · rw [Bool.not_eq_true] at ht
    rw [ht] at h
    simp only [Bool.false_eq_true, if_false] at h
    by_cases h0 : cancelled 0 = true
    · rw [if_pos h0] at h
      simp at h
    · rw [if_neg h0] at h
      rcases ho : (engineRun lookupD (baseOut ++ "/engine/task-" ++ toString task.id)
          task.cfg task.district cancelled 1).outcome with m | res
      · simp only [ho] at h
        simp only [List.mem_cons] at h
        rcases h with h | h
        · exact absurd h (by simp)
        · exact engineRun_no_rmtree lookupD _ task.cfg task.district cancelled 1 h
      · simp only [ho] at h
        by_cases hq : cancelled (engineRun lookupD
            (baseOut ++ "/engine/task-" ++ toString task.id)
            task.cfg task.district cancelled 1).q = true
        · rw [if_pos hq] at h
          simp only [List.mem_cons] at h
          rcases h with h | h
          · exact absurd h (by simp)
          · exact engineRun_no_rmtree lookupD _ task.cfg task.district cancelled 1 h
        · rw [if_neg hq] at h
          simp only [List.mem_cons] at h
          rcases h with h | h
          · exact absurd h (by simp)
          · exact engineRun_no_rmtree lookupD _ task.cfg task.district cancelled 1 h

/-- C4: when the task status flips to Cancelled during the Engine's
district run — observed by one of the run's executed checkpoints (a
status read in `[2, q)` returns true under a monotone cancellation
schedule) — the Engine returns early (`None`, modelled as the
`cancelled` stop), the work it performed is a prefix of the uncancelled
run's work (nothing past the aborting checkpoint is started), and the
Job Coordinator never marks the task Success. -/
theorem cancel_between_checkpoints_no_success (lookupD : String → Option String)
    (baseOut : String) (cancelled : Nat → Bool) (tNow tEnd : Nat) (task : MapTaskRec)
    (nm : String)
    (hmono : ∀ i j, i ≤ j → cancelled i = true → cancelled j = true)
    (hterm : isTerminal task.status = false)
    (h0 : cancelled 0 = false) (h1 : cancelled 1 = false)
    (hdist : lookupD task.district = some nm)
    (hflip : ∃ k, 2 ≤ k
      ∧ k < (process_district (baseOut ++ "/engine/task-" ++ toString task.id)
          task.cfg nm cancelled 2).q
      ∧ cancelled k = true) :
    (process_district (baseOut ++ "/engine/task-" ++ toString task.id)
        task.cfg nm cancelled 2).stopped = some POutcome.cancelled
    ∧ (∃ t, (process_district (baseOut ++ "/engine/task-" ++ toString task.id)
          task.cfg nm cancelled 2).work ++ t
        = (process_district (baseOut ++ "/engine/task-" ++ toString task.id)
            task.cfg nm (fun _ => false) 2).work)
    ∧ ¬ (process_map_task lookupD baseOut cancelled tNow tEnd task).task.status
        = MapTaskStatus.success := by
  have hstop : (process_district (baseOut ++ "/engine/task-" ++ toString task.id)
      task.cfg nm cancelled 2).stopped = some POutcome.cancelled :=
    runItems_cancelled_of_flip cancelled _ 2 hflip
  rcases hflip with ⟨k, hk2, hkq, hck⟩
  have hq : cancelled (process_district (baseOut ++ "/engine/task-" ++ toString task.id)
      task.cfg nm cancelled 2).q = true :=
    hmono k _ (le_of_lt hkq) hck
  have hq1 : cancelled ((process_district (baseOut ++ "/engine/task-" ++ toString task.id)
      task.cfg nm cancelled 2).q + 1) = true :=
    hmono k _ (le_trans (le_of_lt hkq) (Nat.le_succ _)) hck
  have hdo : districtOutcome (process_district (baseOut ++ "/engine/task-" ++ toString task.id)
      task.cfg nm cancelled 2) = POutcome.cancelled := by
    rw [districtOutcome, hstop]
    rfl
  have her : engineRun lookupD (baseOut ++ "/engine/task-" ++ toString task.id)
      task.cfg task.district cancelled 1
      = ⟨ROutcome.done (some none),
          (process_district (baseOut ++ "/engine/task-" ++ toString task.id)
            task.cfg nm cancelled 2).q + 1,
          (process_district (baseOut ++ "/engine/task-" ++ toString task.id)
            task.cfg nm cancelled 2).work,
          (process_district (baseOut ++ "/engine/task-" ++ toString task.id)
            task.cfg nm cancelled 2).progress⟩ := by
    unfold engineRun
    rw [hdist]
    dsimp only
    rw [h1]
    simp only [Bool.false_eq_true, if_false]
    rw [hdo]
    dsimp only
    rw [hq]
    simp
  refine ⟨hstop, runItems_work_prefix cancelled _ 2 2, ?_⟩
  unfold process_map_task
  rw [hterm]
  simp only [Bool.false_eq_true, if_false]
  rw [h0]
  simp only [Bool.false_eq_true, if_false]
  rw [her]
  dsimp only
  rw [hq1]
  simp

theorem cancel_between_checkpoints_no_success_witness :
    (process_district ("out" ++ "/engine/task-" ++ toString (1:Nat))
        (⟨[], [⟨"slope", 1, none⟩]⟩ : EngineConfigs) "D1"
        (fun k => decide (3 ≤ k)) 2).stopped = some POutcome.cancelled
    ∧ (∃ t, (process_district ("out" ++ "/engine/task-" ++ toString (1:Nat))
          (⟨[], [⟨"slope", 1, none⟩]⟩ : EngineConfigs) "D1"
          (fun k => decide (3 ≤ k)) 2).work ++ t
        = (process_district ("out" ++ "/engine/task-" ++ toString (1:Nat))
            (⟨[], [⟨"slope", 1, none⟩]⟩ : EngineConfigs) "D1"
            (fun _ => false) 2).work)
    ∧ ¬ (process_map_task (fun c => if c = "001" then some "D1" else none) "out"
          (fun k => decide (3 ≤ k)) 10 11
          ⟨1, 7, "001", MapTaskStatus.pending, none, none, none,
            ⟨[], [⟨"slope", 1, none⟩]⟩⟩).task.status
        = MapTaskStatus.success :=
  cancel_between_checkpoints_no_success
    (fun c => if c = "001" then some "D1" else none) "out"
    (fun k => decide (3 ≤ k)) 10 11
    ⟨1, 7, "001", MapTaskStatus.pending, none, none, none, ⟨[], [⟨"slope", 1, none⟩]⟩⟩
    "D1"
    (fun i j hij hi => by
      simp only [decide_eq_true_eq] at hi ⊢
      exact le_trans hi hij)
    (by decide) (by decide) (by decide) (by decide)
    ⟨3, by decide, by decide, by decide⟩
